import Mathlib

/-!
Verification of the schedule-resolution core of the `bus` program
(`src/main.rs`): data loading (`Data::read`) and the departure filter and
ranker (`Data::stop_sched`).

Modelling conventions, each noted again at the relevant definition:
- Wall-clock times (`chrono::NaiveTime`) are seconds since midnight (`Nat`).
- Calendar dates (`chrono::NaiveDate`, `chrono::Date<Local>`) are a `Nat`
  civil-day index; only their ordering, equality and a consistent weekday
  assignment are ever consumed by the program, so the index granularity is
  irrelevant as long as parsing is order-preserving, which it is.
- `HashMap` is modelled as an association list with key-replacing insert;
  the program only ever observes maps through `get`, for which this is
  exact (last insert for a key wins, as in `HashMap::collect`).
- Real-time delays (`f64` seconds) are modelled as `Int`: the program
  consumes them only through the truncating cast `as i64` in the sort key,
  and compares them for nothing else.
- Rust panics (`expect`, `bail!` aborts) are modelled as `Except.error`
  values so that the functions stay total; `BusError.noSuchStop` is the
  `bail!("No such bus stop")` result and `BusError.fatal` covers the
  `expect` aborts that the program treats as broken load-time invariants.
- `Vec::sort_by_key` is a stable sort by a total preorder; its result is
  uniquely determined by stability plus sortedness, so it is modelled by
  `List.insertionSort` (stable, see `Mathlib.Data.List.Sort`) over the
  same key order.
-/

/-- Association-list model of `HashMap::get`. -/
def mapLookup {α : Type} : List (String × α) → String → Option α
  | [], _ => none
  | (k, v) :: rest, key => if k = key then some v else mapLookup rest key

/-- Association-list model of `HashMap::insert`: replace the value at the
key if present, otherwise add the binding. -/
def mapInsert {α : Type} : List (String × α) → String → α → List (String × α)
  | [], key, v => [(key, v)]
  | (k, w) :: rest, key, v =>
    if k = key then (key, v) :: rest else (k, w) :: mapInsert rest key v

/-- Model of `map.entry(key).or_insert(vec![]).push(v)`. -/
def mapInsertAppend {α : Type} : List (String × List α) → String → α → List (String × List α)
  | [], key, v => [(key, [v])]
  | (k, w) :: rest, key, v =>
    if k = key then (k, w ++ [v]) :: rest else (k, w) :: mapInsertAppend rest key v

/-- The list stored at a key, an empty list when the key is absent
(model of `get(key).cloned().unwrap_or_else(|| vec![])`). -/
def lookupList {α : Type} (m : List (String × List α)) (key : String) : List α :=
  (mapLookup m key).getD []

instance instDecidableEqExceptM {ε α : Type} [DecidableEq ε] [DecidableEq α] :
    DecidableEq (Except ε α) := fun x y =>
  match x, y with
  | .error e1, .error e2 =>
    if h : e1 = e2 then isTrue (by rw [h]) else isFalse (by intro hc; cases hc; exact h rfl)
  | .ok a1, .ok a2 =>
    if h : a1 = a2 then isTrue (by rw [h]) else isFalse (by intro hc; cases hc; exact h rfl)
  | .error _, .ok _ => isFalse (by intro hc; cases hc)
  | .ok _, .error _ => isFalse (by intro hc; cases hc)

/-- `chrono::Weekday`. -/
inductive Weekday where
  | Sun
  | Mon
  | Tue
  | Wed
  | Thu
  | Fri
  | Sat
deriving DecidableEq

/-- A consistent weekday assignment to civil day indices, modelling
`Datelike::weekday`; every claim depends only on its consistency, not on
which index falls on which weekday. -/
def Date.weekday (d : Nat) : Weekday :=
  match d % 7 with
  | 0 => .Mon
  | 1 => .Tue
  | 2 => .Wed
  | 3 => .Thu
  | 4 => .Fri
  | 5 => .Sat
  | _ => .Sun

/-- A local date plus time of day (`chrono::DateTime<Local>`). -/
structure LocalDateTime where
  date : Nat
  time : Nat
deriving DecidableEq

/-- Comparison of two local instants, date first (`DateTime` `Ord`). -/
def LocalDateTime.lt (a b : LocalDateTime) : Bool :=
  a.date < b.date || (a.date == b.date && a.time < b.time)

/-- Digit value of a character, `none` for non-digits. -/
def digitVal (c : Char) : Option Nat :=
  if c.isDigit then some (c.toNat - 48) else none

/-- Read one or two digits from the front of a character list, as chrono
numeric parsing does for two-digit fields. -/
def parse2Digits : List Char → Option (Nat × List Char)
  | [] => none
  | c :: rest =>
    match digitVal c with
    | none => none
    | some d1 =>
      match rest with
      | c2 :: rest2 =>
        match digitVal c2 with
        | some d2 => some (d1 * 10 + d2, rest2)
        | none => some (d1, rest)
      | [] => some (d1, [])

/-- `NaiveTime::parse_from_str(s, "%k:%M:%S")`: hour, minute, second fields
separated by colons, each numeric field tolerating leading spaces (so a
space-padded single-digit hour such as in " 6:05:00" is accepted); the whole
string must be consumed and the fields must form a valid time of day. -/
def parseTimeK (s : String) : Option Nat :=
  match parse2Digits (s.toList.dropWhile (fun c => c = ' ')) with
  | none => none
  | some (h, rest1) =>
    match rest1 with
    | ':' :: rest2 =>
      match parse2Digits (rest2.dropWhile (fun c => c = ' ')) with
      | none => none
      | some (m, rest3) =>
        match rest3 with
        | ':' :: rest4 =>
          match parse2Digits (rest4.dropWhile (fun c => c = ' ')) with
          | none => none
          | some (sec, rest5) =>
            if rest5.isEmpty && h < 24 && m < 60 && sec < 60 then
              some (h * 3600 + m * 60 + sec)
            else none
        | _ => none
    | _ => none

def isLeapYear (y : Nat) : Bool :=
  (y % 4 == 0 && y % 100 != 0) || y % 400 == 0

def daysInMonth (y m : Nat) : Nat :=
  if m == 2 then (if isLeapYear y then 29 else 28)
  else if m == 4 || m == 6 || m == 9 || m == 11 then 30
  else 31

def digitsToNat (cs : List Char) : Nat :=
  cs.foldl (fun a c => a * 10 + (c.toNat - 48)) 0

/-- `NaiveDate::parse_from_str(s, "%Y%m%d")`: exactly eight digits, four for
the year then two each for month and day, which must denote an existing
civil date. The produced day index `y * 512 + m * 32 + d` is strictly
increasing in the (year, month, day) triple, so date comparisons on parsed
dates agree with chronological order; no claim consumes anything else. -/
def parseDate8 (s : String) : Option Nat :=
  let cs := s.toList
  if cs.length == 8 && cs.all Char.isDigit then
    let y := digitsToNat (cs.take 4)
    let m := digitsToNat ((cs.drop 4).take 2)
    let d := digitsToNat (cs.drop 6)
    if 1 ≤ m && m ≤ 12 && 1 ≤ d && d ≤ daysInMonth y m then
      some (y * 512 + m * 32 + d)
    else none
  else none

/-- Row of `trips.txt` (struct `Trip`). -/
structure Trip where
  route_id : String
  route_short_name : String
  service_id : String
  trip_id : String
  trip_headsign : String
  direction_id : String
  direction_name : String
  block_id : String
  shape_id : String
  shape_code : String
  trip_type : String
  trip_sort : String
  wheelchair_accessible : String
  bikes_allowed : String
deriving DecidableEq

/-- Row of `stops.txt` (struct `Stop`). -/
structure Stop where
  stop_id : String
  stop_code : String
  stop_name : String
  stop_desc : String
  stop_lat : String
  stop_lon : String
  agency_id : String
  jurisdiction_id : String
  location_type : String
  parent_station : String
  relative_position : String
  cardinal_direction : String
  wheelchair_boarding : String
  primary_street : String
  address_range : String
  cross_location : String
deriving DecidableEq

/-- Row of `stop_times.txt` before time parsing (struct `StopTimeRaw`). -/
structure StopTimeRaw where
  trip_id : String
  stop_sequence : String
  stop_id : String
  pickup_type : String
  drop_off_type : String
  arrival_time : String
  departure_time : String
  timepoint : String
  stop_headsign : String
  shape_dist_traveled : String
deriving DecidableEq

/-- Struct `StopTime`, with parsed times. -/
structure StopTime where
  trip_id : String
  stop_sequence : String
  stop_id : String
  pickup_type : String
  drop_off_type : String
  arrival_time : Nat
  departure_time : Nat
  timepoint : String
  stop_headsign : String
  shape_dist_traveled : String
deriving DecidableEq

/-- `StopTime::from_raw`: total; a time field that fails to parse is
silently replaced by midnight (`unwrap_or_else(|_| NaiveTime::from_hms(0, 0, 0))`). -/
def StopTime.from_raw (raw : StopTimeRaw) : StopTime :=
  { trip_id := raw.trip_id
    stop_sequence := raw.stop_sequence
    stop_id := raw.stop_id
    pickup_type := raw.pickup_type
    drop_off_type := raw.drop_off_type
    arrival_time := (parseTimeK raw.arrival_time).getD 0
    departure_time := (parseTimeK raw.departure_time).getD 0
    timepoint := raw.timepoint
    stop_headsign := raw.stop_headsign
    shape_dist_traveled := raw.shape_dist_traveled }

/-- Row of `calendar.txt` (struct `CalendarRaw`). -/
structure CalendarRaw where
  service_id : String
  service_name : String
  monday : String
  tuesday : String
  wednesday : String
  thursday : String
  friday : String
  saturday : String
  sunday : String
  start_date : String
  end_date : String
deriving DecidableEq

/-- The `Days` bitflags: a bitmask over the seven weekday bits. -/
abbrev Days := Nat

def Days.MONDAY : Days := 1
def Days.TUESDAY : Days := 2
def Days.WEDNESDAY : Days := 4
def Days.THURSDAY : Days := 8
def Days.FRIDAY : Days := 16
def Days.SATURDAY : Days := 32
def Days.SUNDAY : Days := 64

/-- `bitflags` `contains`: all bits of the argument are set. -/
def Days.contains (self other : Days) : Bool :=
  self &&& other == other

/-- `Days::from_weekday`. -/
def Days.from_weekday : Weekday → Days
  | .Sun => Days.SUNDAY
  | .Mon => Days.MONDAY
  | .Tue => Days.TUESDAY
  | .Wed => Days.WEDNESDAY
  | .Thu => Days.THURSDAY
  | .Fri => Days.FRIDAY
  | .Sat => Days.SATURDAY

/-- Kind of a calendar exception (enum `ExceptionType`). -/
inductive ExceptionType where
  | Added
  | Removed
deriving DecidableEq

/-- Row of `calendar_dates.txt` (struct `CalendarDateRaw`). -/
structure CalendarDateRaw where
  date : String
  exception_type : String
  service_id : String
deriving DecidableEq

/-- Struct `CalendarDate`, a parsed calendar exception. -/
structure CalendarDate where
  date : Nat
  exception_type : ExceptionType
  service_id : String
deriving DecidableEq

/-- Struct `Calendar`, a parsed service calendar. -/
structure Calendar where
  service_id : String
  service_name : String
  start_date : Nat
  end_date : Nat
  days : Days
  exceptions : List CalendarDate
deriving DecidableEq

/-- Load-time failures: the date-parse `expect` aborts and the
`expect("No such service.")` abort, which the program treats as fatal
(the load never yields a partially built store). -/
inductive LoadError where
  | badDate (field : String)
  | unknownService (service_id : String)
deriving DecidableEq

/-- `Calendar::from_calendar`: build the weekday bitmask from the seven
"1"-valued flag columns (in source order), parse both dates fatally, and
start with no exceptions attached. -/
def Calendar.from_calendar (calendar : CalendarRaw) : Except LoadError Calendar :=
  let days0 : Days := 0
  let days1 := if calendar.sunday == "1" then days0 ||| Days.SUNDAY else days0
  let days2 := if calendar.monday == "1" then days1 ||| Days.MONDAY else days1
  let days3 := if calendar.tuesday == "1" then days2 ||| Days.TUESDAY else days2
  let days4 := if calendar.wednesday == "1" then days3 ||| Days.WEDNESDAY else days3
  let days5 := if calendar.thursday == "1" then days4 ||| Days.THURSDAY else days4
  let days6 := if calendar.friday == "1" then days5 ||| Days.FRIDAY else days5
  let days7 := if calendar.saturday == "1" then days6 ||| Days.SATURDAY else days6
  match parseDate8 calendar.start_date with
  | none => .error (.badDate calendar.start_date)
  | some sd =>
    match parseDate8 calendar.end_date with
    | none => .error (.badDate calendar.end_date)
    | some ed =>
      .ok { service_id := calendar.service_id
            service_name := calendar.service_name
            start_date := sd
            end_date := ed
            days := days7
            exceptions := [] }

/-- `CalendarDate::from_raw`: the date parse is fatal; any exception-type
string other than "1" means `Removed`. -/
def CalendarDate.from_raw (raw : CalendarDateRaw) : Except LoadError CalendarDate :=
  match parseDate8 raw.date with
  | none => .error (.badDate raw.date)
  | some date =>
    .ok { date := date
          exception_type :=
            if raw.exception_type == "1" then ExceptionType.Added else ExceptionType.Removed
          service_id := raw.service_id }

/-- Struct `Data`: the four keyed collections of the static schedule store. -/
structure Data where
  trips : List (String × Trip)
  stops : List (String × Stop)
  calendar : List (String × Calendar)
  stop_times : List (String × List StopTime)
deriving DecidableEq

/-- The first loop of `Data::read`: collect parsed calendars keyed by
service id. -/
def loadCalendars : List (String × Calendar) → List CalendarRaw →
    Except LoadError (List (String × Calendar))
  | m, [] => .ok m
  | m, raw :: rest =>
    match Calendar.from_calendar raw with
    | .error e => .error e
    | .ok cal => loadCalendars (mapInsert m cal.service_id cal) rest

/-- The second loop of `Data::read`: attach each parsed exception to the
calendar its service id names, failing when that calendar is absent
(`expect("No such service.")`). -/
def attachExceptions : List (String × Calendar) → List CalendarDateRaw →
    Except LoadError (List (String × Calendar))
  | m, [] => .ok m
  | m, raw :: rest =>
    match CalendarDate.from_raw raw with
    | .error e => .error e
    | .ok ex =>
      match mapLookup m ex.service_id with
      | none => .error (.unknownService ex.service_id)
      | some cal =>
        attachExceptions
          (mapInsert m ex.service_id { cal with exceptions := cal.exceptions ++ [ex] }) rest

/-- The third loop of `Data::read`: group stop-time entries by stop id,
appending in input order. -/
def loadStopTimes (m : List (String × List StopTime)) (rows : List StopTimeRaw) :
    List (String × List StopTime) :=
  rows.foldl (fun m raw => let st := StopTime.from_raw raw; mapInsertAppend m st.stop_id st) m

/-- `Data::read` over already-deserialized rows (CSV decoding is the
out-of-scope loader): calendars, then exceptions, then stop times, with
trips and stops collected by key. -/
def Data.read (calRows : List CalendarRaw) (exRows : List CalendarDateRaw)
    (stRows : List StopTimeRaw) (tripRows : List Trip) (stopRows : List Stop) :
    Except LoadError Data :=
  match loadCalendars [] calRows with
  | .error e => .error e
  | .ok cal0 =>
    match attachExceptions cal0 exRows with
    | .error e => .error e
    | .ok calendar =>
      .ok { trips := tripRows.foldl (fun m t => mapInsert m t.trip_id t) []
            stops := stopRows.foldl (fun m s => mapInsert m s.stop_id s) []
            calendar := calendar
            stop_times := loadStopTimes [] stRows }

/-- Struct `FilterConfig`. -/
structure FilterConfig where
  stop_id : String
  after : LocalDateTime
  how_many : Option Nat
  route : Option String
deriving DecidableEq

/-- One element of `StopBusInfo::buses`:
(route short name, headsign, scheduled departure, optional delay in seconds). -/
abbrev BusEntry := String × String × Nat × Option Int

/-- Struct `StopBusInfo`. -/
structure StopBusInfo where
  stop_name : String
  buses : List BusEntry
deriving DecidableEq

/-- Failures of `stop_sched`: the `bail!("No such bus stop")` result, plus
the `expect` aborts on broken referential integrity, modelled as error
values to keep the function total. -/
inductive BusError where
  | noSuchStop
  | fatal (msg : String)
deriving DecidableEq

/-- The real-time delay index: by stop id, then by trip id, delay in
seconds. The source stores `f64` seconds but consumes them only through
the truncating cast `as i64`. -/
abbrev RealTime := List (String × List (String × Int))

/-- The route filter clause of `stop_sched`: with a configured route,
a trip whose `route_short_name` differs is dropped. -/
def routeMismatch (route : Option String) (trip : Trip) : Bool :=
  match route with
  | some route => trip.route_short_name != route
  | none => false

/-- The four service-validity clauses of the `stop_sched` filter chain, in
source order: date below the range start, date above the range end, weekday
not in the day set, or a `Removed` exception dated today on this service. -/
def serviceActive (service : Calendar) (today : Nat) : Bool :=
  if today < service.start_date then false
  else if service.end_date < today then false
  else if !(Days.contains service.days (Days.from_weekday (Date.weekday today))) then false
  else if service.exceptions.any (fun ex =>
      ex.date == today && service.service_id == ex.service_id &&
        ex.exception_type == ExceptionType.Removed) then false
  else true

/-- `NaiveTime::overflowing_add_signed` restricted to whole seconds: the
wrapped time of day together with the number of seconds (a multiple of
86400) that overflowed past midnight. -/
def overflowingAddSigned (t : Nat) (secs : Int) : Nat × Int :=
  let total : Int := (t : Int) + secs
  let wrapped : Int := total.emod 86400
  (wrapped.toNat, total - wrapped)

/-- The `sort_by_key` key of a bus entry: wrapped delay-adjusted time plus
overflow, compared as a tuple (missing delay counts as zero, matching
`delay.unwrap_or(0.0) as i64`). -/
def sortKey (e : BusEntry) : Nat × Int :=
  overflowingAddSigned e.2.2.1 (e.2.2.2.getD 0)

/-- Lexicographic comparison of sort keys, the derived tuple `Ord`. -/
def keyLeB (a b : Nat × Int) : Bool :=
  a.1 < b.1 || (a.1 == b.1 && a.2 ≤ b.2)

/-- The sort order of `sort_by_key` as a relation on bus entries. -/
def busLe (a b : BusEntry) : Prop :=
  keyLeB (sortKey a) (sortKey b) = true

instance : DecidableRel busLe :=
  fun a b => inferInstanceAs (Decidable (keyLeB (sortKey a) (sortKey b) = true))

instance : IsTotal BusEntry busLe := by
  constructor
  intro a b
  simp only [busLe, keyLeB, Bool.or_eq_true, Bool.and_eq_true, decide_eq_true_eq, beq_iff_eq]
  omega

instance : IsTrans BusEntry busLe := by
  constructor
  intro a b c
  simp only [busLe, keyLeB, Bool.or_eq_true, Bool.and_eq_true, decide_eq_true_eq, beq_iff_eq]
  omega

/-- The body of the `filter_map` closure in `stop_sched` for one stop-time
entry. `localToday` is the ambient `Local::today()` that the source reads
inside `to_local_time`; it is an explicit parameter here because it is not
part of the query. Lookup failures model the `expect` aborts. -/
def processBus (d : Data) (conf : FilterConfig) (real_time : RealTime)
    (localToday : Nat) (bus : StopTime) : Except BusError (Option BusEntry) :=
  match mapLookup d.trips bus.trip_id with
  | none => .error (.fatal "Trip id not found")
  | some trip =>
    match mapLookup d.calendar trip.service_id with
    | none => .error (.fatal "Service id not found")
    | some service =>
      if routeMismatch conf.route trip then .ok none
      else if !serviceActive service conf.after.date then .ok none
      else if LocalDateTime.lt { date := localToday, time := bus.departure_time } conf.after then
        .ok none
      else
        .ok (some (trip.route_short_name, trip.trip_headsign, bus.departure_time,
          (mapLookup real_time conf.stop_id).bind (fun stop => mapLookup stop bus.trip_id)))

/-- The `filter_map` loop of `stop_sched`: keep surviving entries in input
order, aborting at the first integrity failure as the source iteration
would. -/
def collectBuses (d : Data) (conf : FilterConfig) (real_time : RealTime)
    (localToday : Nat) : List StopTime → Except BusError (List BusEntry)
  | [] => .ok []
  | bus :: rest =>
    match processBus d conf real_time localToday bus with
    | .error e => .error e
    | .ok entry =>
      match collectBuses d conf real_time localToday rest with
      | .error e => .error e
      | .ok collected =>
        match entry with
        | none => .ok collected
        | some e => .ok (e :: collected)

/-- `Data::stop_sched`: look the stop up, filter its stop-time entries,
stable-sort by the delay-adjusted key, truncate when a count is configured,
and return the stop name with the surviving entries. -/
def Data.stop_sched (d : Data) (conf : FilterConfig) (real_time : RealTime)
    (localToday : Nat) : Except BusError StopBusInfo :=
  match mapLookup d.stops conf.stop_id with
  | none => .error .noSuchStop
  | some stop =>
    match collectBuses d conf real_time localToday (lookupList d.stop_times conf.stop_id) with
    | .error e => .error e
    | .ok collected =>
      let sorted := List.insertionSort busLe collected
      .ok { stop_name := stop.stop_name
            buses :=
              match conf.how_many with
              | some len => sorted.take len
              | none => sorted }

/-- The effective departure time of a returned entry, as the specification
words it: scheduled departure time of day plus the attached delay (zero when
absent), wrapping around midnight. -/
def effectiveDeparture (e : BusEntry) : Int :=
  ((e.2.2.1 : Int) + e.2.2.2.getD 0).emod 86400

/-- Load-time referential integrity, which the program assumes of every
loaded store: every stop-time entry names a trip of the trip table, and
every trip names a service of the calendar table. -/
def DataIntegrity (d : Data) : Prop :=
  (∀ p ∈ d.stop_times, ∀ st ∈ p.2, ∃ q ∈ d.trips, q.1 = st.trip_id) ∧
  (∀ q ∈ d.trips, ∃ c ∈ d.calendar, c.1 = q.2.service_id)

instance (d : Data) : Decidable (DataIntegrity d) :=
  inferInstanceAs (Decidable (_ ∧ _))

/-- Every exception attached to the calendar carries the calendar's own
service id; `Data.read` establishes this for every calendar it stores. -/
def ExceptionsOwn (cal : Calendar) : Prop :=
  ∀ ex ∈ cal.exceptions, ex.service_id = cal.service_id

instance (cal : Calendar) : Decidable (ExceptionsOwn cal) :=
  inferInstanceAs (Decidable (∀ ex ∈ cal.exceptions, ex.service_id = cal.service_id))

/-- Drop every `Added` exception of a calendar. -/
def Calendar.stripAdded (c : Calendar) : Calendar :=
  { c with exceptions := c.exceptions.filter (fun ex => ex.exception_type != ExceptionType.Added) }

/-- Drop every `Added` exception of every calendar of a store. -/
def Data.stripAdded (d : Data) : Data :=
  { d with calendar := d.calendar.map (fun p => (p.1, p.2.stripAdded)) }

/-- Invariant of the calendar map under construction: each stored calendar
carries its key as service id, and so does each of its exceptions. -/
def CalendarMapWF (m : List (String × Calendar)) : Prop :=
  ∀ k cal, mapLookup m k = some cal →
    cal.service_id = k ∧ ∀ ex ∈ cal.exceptions, ex.service_id = k

/-- Example trip on route 80 (concrete witness data). -/
def exTripA : Trip :=
  { route_id := "r80", route_short_name := "80", service_id := "SV", trip_id := "TA",
    trip_headsign := "East", direction_id := "", direction_name := "", block_id := "",
    shape_id := "", shape_code := "", trip_type := "", trip_sort := "",
    wheelchair_accessible := "", bikes_allowed := "" }

/-- Second example trip on the same route and service. -/
def exTripB : Trip :=
  { exTripA with trip_id := "TB", trip_headsign := "West" }

/-- Example stop (concrete witness data). -/
def exStop : Stop :=
  { stop_id := "S", stop_code := "", stop_name := "Main St", stop_desc := "", stop_lat := "",
    stop_lon := "", agency_id := "", jurisdiction_id := "", location_type := "",
    parent_station := "", relative_position := "", cardinal_direction := "",
    wheelchair_boarding := "", primary_street := "", address_range := "", cross_location := "" }

/-- Example calendar active on every weekday over a wide date range. -/
def exCal : Calendar :=
  { service_id := "SV", service_name := "daily", start_date := 0, end_date := 10000,
    days := 127, exceptions := [] }

/-- Example stop-time entry at the example stop. -/
def exBus (tid : String) (dep : Nat) : StopTime :=
  { trip_id := tid, stop_sequence := "", stop_id := "S", pickup_type := "",
    drop_off_type := "", arrival_time := dep, departure_time := dep, timepoint := "",
    stop_headsign := "", shape_dist_traveled := "" }

/-- Example store: one stop served by two trips, at 08:00:00 (trip TA) and
08:02:00 (trip TB). -/
def exData : Data :=
  { trips := [("TA", exTripA), ("TB", exTripB)]
    stops := [("S", exStop)]
    calendar := [("SV", exCal)]
    stop_times := [("S", [exBus "TA" 28800, exBus "TB" 28920])] }

/-- Example query at the example stop, as of midnight on day 100. -/
def exConf : FilterConfig :=
  { stop_id := "S", after := { date := 100, time := 0 }, how_many := none, route := none }

/-- Example delay index: trip TA is 180 seconds late at the example stop. -/
def exRT : RealTime :=
  [("S", [("TA", (180 : Int))])]

/-- The ranked result of the example query: trip TB (effective 08:02:00)
precedes the delayed trip TA (effective 08:03:00). -/
def exInfo : StopBusInfo :=
  { stop_name := "Main St"
    buses := [("80", "West", 28920, none), ("80", "East", 28800, some 180)] }

/-- Example calendar with a Removed exception on day 100. -/
def exCalRemoved : Calendar :=
  { exCal with exceptions := [{ date := 100, exception_type := ExceptionType.Removed,
                                service_id := "SV" }] }

/-- Example query whose as-of time of day is exactly 08:00:00. -/
def exConfEight : FilterConfig :=
  { exConf with after := { date := 100, time := 28800 } }

/-- Example query naming a stop id absent from the example store. -/
def exConfMissing : FilterConfig :=
  { exConf with stop_id := "X" }

/-- A stop-time row whose two time fields do not parse. -/
def garbageRow : StopTimeRaw :=
  { trip_id := "TA", stop_sequence := "1", stop_id := "S", pickup_type := "",
    drop_off_type := "", arrival_time := "garbage", departure_time := "garbage",
    timepoint := "", stop_headsign := "", shape_dist_traveled := "" }

/-- The store loaded from the single malformed-time row: the entry is kept
with both times at midnight. -/
def garbageLoaded : Data :=
  { trips := [], stops := [], calendar := [],
    stop_times := [("S", [StopTime.from_raw garbageRow])] }

/-- A calendar row whose start date does not parse. -/
def badCalRow : CalendarRaw :=
  { service_id := "SV", service_name := "Daily", monday := "1", tuesday := "1",
    wednesday := "1", thursday := "1", friday := "1", saturday := "1", sunday := "1",
    start_date := "garbage", end_date := "20201231" }

/-- A well-formed calendar row for service SV, active every day of 2020. -/
def goodCalRow : CalendarRaw :=
  { badCalRow with start_date := "20200101" }

/-- A calendar exception row whose date does not parse. -/
def badExRow : CalendarDateRaw :=
  { date := "garbage", exception_type := "2", service_id := "SV" }

/-- A calendar exception row naming a service id no calendar row declares. -/
def orphanExRow : CalendarDateRaw :=
  { date := "20200315", exception_type := "2", service_id := "ZZ" }

/-- A calendar exception row for service SV on 2020-03-15, kind Removed. -/
def matchedExRow : CalendarDateRaw :=
  { date := "20200315", exception_type := "2", service_id := "SV" }

/-- The calendar that loading `goodCalRow` with `matchedExRow` stores under
key SV: the day indices are those of `parseDate8`. -/
def loadedCal : Calendar :=
  { service_id := "SV", service_name := "Daily", start_date := 1034273, end_date := 1034655,
    days := 127,
    exceptions := [{ date := 1034351, exception_type := ExceptionType.Removed,
                     service_id := "SV" }] }

/-- The store that loading `goodCalRow` with `matchedExRow` (and nothing
else) produces. -/
def loadedData : Data :=
  { trips := [], stops := [], calendar := [("SV", loadedCal)], stop_times := [] }

/-- The one exception that the `goodCalRow` plus `matchedExRow` load stores. -/
def loadedEx : CalendarDate :=
  { date := 1034351, exception_type := ExceptionType.Removed, service_id := "SV" }

/-! ### Association-list lemmas -/

theorem mapLookup_insert {α : Type} (m : List (String × α)) (k key : String) (v : α) :
    mapLookup (mapInsert m k v) key = if k = key then some v else mapLookup m key := by
  induction m with
  | nil => simp [mapInsert, mapLookup]
  | cons p rest ih =>
    obtain ⟨pk, pv⟩ := p
    by_cases hpk : pk = k
    · subst hpk
      simp only [mapInsert, if_pos rfl, mapLookup]
      by_cases hk : pk = key
      · subst hk; simp
      · simp [hk]
    · simp only [mapInsert, if_neg hpk, mapLookup]
      by_cases hk : pk = key
      · subst hk
        have : ¬ k = pk := fun h => hpk h.symm
        simp [this]
      · simp [hk, ih]

theorem mapLookup_mem {α : Type} {m : List (String × α)} {key : String} {v : α}
    (h : mapLookup m key = some v) : (key, v) ∈ m := by
  induction m with
  | nil => simp [mapLookup] at h
  | cons p rest ih =>
    obtain ⟨pk, pv⟩ := p
    simp only [mapLookup] at h
    by_cases hk : pk = key
    · subst hk
      rw [if_pos rfl] at h
      cases h
      exact List.mem_cons_self _ _
    · rw [if_neg hk] at h
      exact List.mem_cons_of_mem _ (ih h)

theorem mapLookup_isSome_of_key {α : Type} {m : List (String × α)} {key : String}
    (h : ∃ q ∈ m, q.1 = key) : ∃ v, mapLookup m key = some v := by
  induction m with
  | nil => simp at h
  | cons p rest ih =>
    obtain ⟨pk, pv⟩ := p
    simp only [mapLookup]
    by_cases hk : pk = key
    · exact ⟨pv, by simp [hk]⟩
    · rw [if_neg hk]
      apply ih
      obtain ⟨q, hq, hqk⟩ := h
      rcases List.mem_cons.mp hq with heq | hmem
      · exact absurd (by rw [heq] at hqk; exact hqk) hk
      · exact ⟨q, hmem, hqk⟩

theorem lookupList_insertAppend {α : Type} (m : List (String × List α)) (k key : String) (v : α) :
    lookupList (mapInsertAppend m k v) key =
      if k = key then lookupList m key ++ [v] else lookupList m key := by
  induction m with
  | nil =>
    simp only [mapInsertAppend, lookupList, mapLookup]
    by_cases hk : k = key <;> simp [hk]
  | cons p rest ih =>
    obtain ⟨pk, pv⟩ := p
    by_cases hpk : pk = k
    · subst hpk
      simp only [mapInsertAppend, if_pos rfl, lookupList, mapLookup]
      by_cases hk : pk = key <;> simp [hk]
    · simp only [mapInsertAppend, if_neg hpk, lookupList, mapLookup]
      by_cases hk : pk = key
      · subst hk
        have : ¬ k = pk := fun h => hpk h.symm
        simp [this]
      · simpa [hk, lookupList] using ih

theorem mapLookup_map_snd {α β : Type} (f : α → β) (m : List (String × α)) (key : String) :
    mapLookup (m.map (fun p => (p.1, f p.2))) key = (mapLookup m key).map f := by
  induction m with
  | nil => simp [mapLookup]
  | cons p rest ih =>
    obtain ⟨pk, pv⟩ := p
    simp only [List.map, mapLookup]
    by_cases hk : pk = key <;> simp [hk, ih]

/-! ### Sort-order lemmas -/

theorem effectiveDeparture_eq_sortKey_fst (e : BusEntry) :
    effectiveDeparture e = ((sortKey e).1 : Int) := by
  show ((e.2.2.1 : Int) + e.2.2.2.getD 0).emod 86400 =
    ((((e.2.2.1 : Int) + e.2.2.2.getD 0).emod 86400).toNat : Int)
  rw [Int.toNat_of_nonneg]
  exact Int.emod_nonneg _ (by decide)

theorem busLe_effectiveDeparture {a b : BusEntry} (h : busLe a b) :
    effectiveDeparture a ≤ effectiveDeparture b := by
  rw [effectiveDeparture_eq_sortKey_fst, effectiveDeparture_eq_sortKey_fst]
  simp only [busLe, keyLeB, Bool.or_eq_true, Bool.and_eq_true, decide_eq_true_eq,
    beq_iff_eq] at h
  omega

/-- C1: for every store, delay index, and query, the list of departures
returned by `stop_sched` is sorted non-decreasing by effective departure
time, that is by the scheduled departure time of day plus the attached
delay (zero when the delay index has no entry for the pair), sums past
midnight wrapping around rather than being moved to the next day. -/
theorem rankedSortedByEffectiveDeparture (d : Data) (conf : FilterConfig) (real_time : RealTime)
    (localToday : Nat) (info : StopBusInfo)
    (h : Data.stop_sched d conf real_time localToday = .ok info) :
    info.buses.Pairwise (fun a b => effectiveDeparture a ≤ effectiveDeparture b) := by
  unfold Data.stop_sched at h
  cases hstop : mapLookup d.stops conf.stop_id with
  | none => rw [hstop] at h; cases h
  | some stop =>
    rw [hstop] at h
    cases hcoll : collectBuses d conf real_time localToday
        (lookupList d.stop_times conf.stop_id) with
    | error e => rw [hcoll] at h; cases h
    | ok collected =>
      rw [hcoll] at h
      have heff : (List.insertionSort busLe collected).Pairwise
          (fun a b => effectiveDeparture a ≤ effectiveDeparture b) :=
        (List.sorted_insertionSort busLe collected).imp busLe_effectiveDeparture
      cases h
      cases hm : conf.how_many with
      | none => simpa [hm] using heff
      | some len =>
        simp only [hm]
        exact heff.take

/-- Witness for C1, realizing the delay-reordering example: trip TA at
08:00:00 delayed by 180 seconds (effective 08:03:00) is ranked after trip
TB at 08:02:00 with no delay. -/
theorem rankedSortedByEffectiveDeparture_witness :
    Data.stop_sched exData exConf exRT 100 = .ok exInfo ∧
    exInfo.buses.Pairwise (fun a b => effectiveDeparture a ≤ effectiveDeparture b) :=
  ⟨rfl, rankedSortedByEffectiveDeparture exData exConf exRT 100 exInfo rfl⟩

/-- For calendars whose attached exceptions carry the calendar's own
service id (which loading guarantees), the exception clause of the filter
reduces to the existence of a Removed exception dated today. -/
theorem exceptionClause_iff (service : Calendar) (today : Nat)
    (hown : ExceptionsOwn service) :
    (service.exceptions.any (fun ex =>
      ex.date == today && service.service_id == ex.service_id &&
        ex.exception_type == ExceptionType.Removed)) = true ↔
      ∃ ex ∈ service.exceptions,
        ex.date = today ∧ ex.exception_type = ExceptionType.Removed := by
  simp only [List.any_eq_true, Bool.and_eq_true, beq_iff_eq]
  constructor
  · rintro ⟨ex, hmem, ⟨h1, h2⟩, h3⟩
    exact ⟨ex, hmem, h1, h3⟩
  · rintro ⟨ex, hmem, h1, h3⟩
    exact ⟨ex, hmem, ⟨h1, (hown ex hmem).symm⟩, h3⟩

/-- C2: for calendars as loading produces them (every attached exception
names the calendar's own service id), the filter treats the service as
active on a date exactly when the date lies in the inclusive range, its
weekday is in the weekly day set, and no Removed exception carries that
date. -/
theorem serviceValidityCharacterization (service : Calendar) (today : Nat)
    (hown : ExceptionsOwn service) :
    serviceActive service today = true ↔
      (service.start_date ≤ today ∧ today ≤ service.end_date ∧
        Days.contains service.days (Days.from_weekday (Date.weekday today)) = true ∧
        ¬ ∃ ex ∈ service.exceptions,
          ex.date = today ∧ ex.exception_type = ExceptionType.Removed) := by
  unfold serviceActive
  split_ifs with h1 h2 h3 h4
  · simp only [Bool.false_eq_true, false_iff]
    rintro ⟨ha, _, _, _⟩
    omega
  · simp only [Bool.false_eq_true, false_iff]
    rintro ⟨_, hb, _, _⟩
    omega
  · simp only [Bool.false_eq_true, false_iff]
    rintro ⟨_, _, hc, _⟩
    rw [hc] at h3
    simp at h3
  · simp only [Bool.false_eq_true, false_iff]
    rintro ⟨_, _, _, hd⟩
    exact hd ((exceptionClause_iff service today hown).mp h4)
  · simp only [true_iff]
    refine ⟨by omega, by omega, ?_, ?_⟩
    · simpa using h3
    · intro hex
      exact h4 ((exceptionClause_iff service today hown).mpr hex)

/-- Witness for C2 at a calendar with a Removed exception on day 100: the
characterization applies and, in particular, day 100 is inactive. -/
theorem serviceValidityCharacterization_witness :
    (serviceActive exCalRemoved 100 = true ↔
      (exCalRemoved.start_date ≤ 100 ∧ 100 ≤ exCalRemoved.end_date ∧
        Days.contains exCalRemoved.days (Days.from_weekday (Date.weekday 100)) = true ∧
        ¬ ∃ ex ∈ exCalRemoved.exceptions,
          ex.date = 100 ∧ ex.exception_type = ExceptionType.Removed)) :=
  serviceValidityCharacterization exCalRemoved 100 (by decide)

/-- The per-entry filter never reads the result-count field of the query. -/
theorem processBus_howMany (d : Data) (real_time : RealTime) (localToday : Nat)
    (sid : String) (aft : LocalDateTime) (hm1 hm2 : Option Nat) (rte : Option String)
    (bus : StopTime) :
    processBus d ⟨sid, aft, hm1, rte⟩ real_time localToday bus =
      processBus d ⟨sid, aft, hm2, rte⟩ real_time localToday bus := rfl

/-- Neither does the filter loop. -/
theorem collectBuses_howMany (d : Data) (real_time : RealTime) (localToday : Nat)
    (sid : String) (aft : LocalDateTime) (hm1 hm2 : Option Nat) (rte : Option String)
    (l : List StopTime) :
    collectBuses d ⟨sid, aft, hm1, rte⟩ real_time localToday l =
      collectBuses d ⟨sid, aft, hm2, rte⟩ real_time localToday l := by
  induction l with
  | nil => rfl
  | cons b rest ih =>
    simp only [collectBuses]
    rw [processBus_howMany d real_time localToday sid aft hm1 hm2 rte b, ih]

/-- C3: with a result count configured, `stop_sched` returns exactly the
first `n` elements of the result it would return with no count configured:
truncation happens after filtering and sorting, never before. -/
theorem truncateAfterSort (d : Data) (conf : FilterConfig) (real_time : RealTime)
    (localToday : Nat) (n : Nat) :
    Data.stop_sched d { conf with how_many := some n } real_time localToday =
      (Data.stop_sched d { conf with how_many := none } real_time localToday).map
        (fun info => { stop_name := info.stop_name, buses := info.buses.take n }) := by
  obtain ⟨sid, aft, hm, rte⟩ := conf
  simp only [Data.stop_sched]
  cases hstop : mapLookup d.stops sid with
  | none => rfl
  | some stop =>
    rw [collectBuses_howMany d real_time localToday sid aft (some n) none rte]
    cases hcoll : collectBuses d ⟨sid, aft, none, rte⟩ real_time localToday
        (lookupList d.stop_times sid) with
    | error e => rfl
    | ok collected => rfl

/-- C4: for an entry that passes the route and service-validity clauses,
and when the ambient local date equals the date of the as-of instant (which
holds in every run, since the program builds the as-of instant from the
ambient date), the filter drops the entry exactly when its scheduled
departure time of day is strictly before the as-of time of day; an entry
scheduled exactly at the as-of time is kept, and the delay index — which is
arbitrary here — plays no role in the decision. -/
theorem pastDepartureUsesScheduledTime (d : Data) (conf : FilterConfig) (real_time : RealTime)
    (localToday : Nat) (bus : StopTime) (trip : Trip) (service : Calendar)
    (hToday : localToday = conf.after.date)
    (hTrip : mapLookup d.trips bus.trip_id = some trip)
    (hService : mapLookup d.calendar trip.service_id = some service)
    (hRoute : routeMismatch conf.route trip = false)
    (hActive : serviceActive service conf.after.date = true) :
    (processBus d conf real_time localToday bus = .ok none ↔
      bus.departure_time < conf.after.time) := by
  subst hToday
  unfold processBus
  simp only [hTrip]
  simp only [hService]
  simp only [hRoute, hActive, Bool.not_true, Bool.false_eq_true, if_false]
  by_cases hlt : bus.departure_time < conf.after.time
  · simp [LocalDateTime.lt, hlt]
  · simp [LocalDateTime.lt, hlt]

/-- Witness for C4 at the boundary: an entry scheduled exactly at the as-of
time of day (08:00:00) is not dropped. -/
theorem pastDepartureUsesScheduledTime_witness :
    (processBus exData exConfEight exRT 100 (exBus "TA" 28800) = .ok none ↔
      (exBus "TA" 28800).departure_time < exConfEight.after.time) :=
  pastDepartureUsesScheduledTime exData exConfEight exRT 100 (exBus "TA" 28800) exTripA exCal
    rfl rfl rfl rfl (by decide)

/-- Under referential integrity, the per-entry filter never hits a lookup
abort: it always yields a kept-or-dropped verdict. -/
theorem processBus_ok (d : Data) (conf : FilterConfig) (real_time : RealTime)
    (localToday : Nat) (bus : StopTime)
    (h1 : ∃ q ∈ d.trips, q.1 = bus.trip_id)
    (h2 : ∀ q ∈ d.trips, ∃ c ∈ d.calendar, c.1 = q.2.service_id) :
    ∃ o, processBus d conf real_time localToday bus = .ok o := by
  obtain ⟨trip, hTripLook⟩ := mapLookup_isSome_of_key h1
  obtain ⟨cal, hCalLook⟩ := mapLookup_isSome_of_key (h2 _ (mapLookup_mem hTripLook))
  unfold processBus
  simp only [hTripLook]
  simp only [hCalLook]
  split_ifs <;> exact ⟨_, rfl⟩

/-- Under referential integrity, the filter loop never aborts. -/
theorem collectBuses_ok (d : Data) (conf : FilterConfig) (real_time : RealTime)
    (localToday : Nat) (l : List StopTime)
    (h : ∀ bus ∈ l, ∃ o, processBus d conf real_time localToday bus = .ok o) :
    ∃ out, collectBuses d conf real_time localToday l = .ok out := by
  induction l with
  | nil => exact ⟨[], rfl⟩
  | cons b rest ih =>
    obtain ⟨o, ho⟩ := h b (List.mem_cons_self b rest)
    obtain ⟨out, hout⟩ := ih (fun x hx => h x (List.mem_cons_of_mem _ hx))
    cases o with
    | none => exact ⟨out, by simp only [collectBuses, ho, hout]⟩
    | some e => exact ⟨e :: out, by simp only [collectBuses, ho, hout]⟩

/-- C5: for a store with load-time referential integrity, `stop_sched`
fails exactly when the queried stop id is not a key of the stop table, the
failure is always the no-such-stop one (with no partial result, the error
being the entire output), and an existing stop — even one with no stop-time
entries at all — yields a successful result carrying the stop's display
name, with an empty departure list in the no-entries case. -/
theorem noSuchStopIsOnlyFailure (d : Data) (conf : FilterConfig) (real_time : RealTime)
    (localToday : Nat) (h : DataIntegrity d) :
    ((Data.stop_sched d conf real_time localToday).isOk = false ↔
      mapLookup d.stops conf.stop_id = none) ∧
    (∀ e, Data.stop_sched d conf real_time localToday = .error e → e = BusError.noSuchStop) ∧
    (∀ stop, mapLookup d.stops conf.stop_id = some stop →
      (∃ buses, Data.stop_sched d conf real_time localToday =
        .ok { stop_name := stop.stop_name, buses := buses }) ∧
      (mapLookup d.stop_times conf.stop_id = none →
        Data.stop_sched d conf real_time localToday =
          .ok { stop_name := stop.stop_name, buses := [] })) := by
  obtain ⟨hint1, hint2⟩ := h
  have hall : ∀ bus ∈ lookupList d.stop_times conf.stop_id,
      ∃ o, processBus d conf real_time localToday bus = .ok o := by
    intro bus hbus
    cases hst : mapLookup d.stop_times conf.stop_id with
    | none => rw [lookupList, hst] at hbus; simp at hbus
    | some sts =>
      rw [lookupList, hst] at hbus
      exact processBus_ok d conf real_time localToday bus
        (hint1 _ (mapLookup_mem hst) bus hbus) hint2
  obtain ⟨collected, hcoll⟩ :=
    collectBuses_ok d conf real_time localToday (lookupList d.stop_times conf.stop_id) hall
  cases hstop : mapLookup d.stops conf.stop_id with
  | none =>
    unfold Data.stop_sched
    simp only [hstop]
    refine ⟨by simp [Except.isOk, Except.toBool], ?_, ?_⟩
    · intro e he
      cases he
      rfl
    · intro stop hstop0
      cases hstop0
  | some stop =>
    unfold Data.stop_sched
    simp only [hstop, hcoll]
    refine ⟨by simp [Except.isOk, Except.toBool], ?_, ?_⟩
    · intro e he
      cases he
    · intro stop0 hstop0
      rw [Option.some.injEq] at hstop0
      subst hstop0
      constructor
      · exact ⟨_, rfl⟩
      · intro hstNone
        have hempty : lookupList d.stop_times conf.stop_id = [] := by
          rw [lookupList, hstNone]
          rfl
        rw [hempty] at hcoll
        cases hcoll
        cases hm : conf.how_many <;> simp [hm]

/-- Witness for C5 at a query naming an unknown stop id. -/
theorem noSuchStopIsOnlyFailure_witness :
    (((Data.stop_sched exData exConfMissing exRT 100).isOk = false ↔
      mapLookup exData.stops exConfMissing.stop_id = none) ∧
    (∀ e, Data.stop_sched exData exConfMissing exRT 100 = .error e →
      e = BusError.noSuchStop) ∧
    (∀ stop, mapLookup exData.stops exConfMissing.stop_id = some stop →
      (∃ buses, Data.stop_sched exData exConfMissing exRT 100 =
        .ok { stop_name := stop.stop_name, buses := buses }) ∧
      (mapLookup exData.stop_times exConfMissing.stop_id = none →
        Data.stop_sched exData exConfMissing exRT 100 =
          .ok { stop_name := stop.stop_name, buses := [] }))) :=
  noSuchStopIsOnlyFailure exData exConfMissing exRT 100 (by decide)

/-- Filtering a list by a predicate that every hit of `q` satisfies does
not change what `any q` sees. -/
theorem any_filter_of_imp {α : Type} (p q : α → Bool) (himp : ∀ x, q x = true → p x = true)
    (l : List α) : (l.filter p).any q = l.any q := by
  induction l with
  | nil => rfl
  | cons x rest ih =>
    cases hp : p x with
    | true => simp [List.filter_cons, hp, ih]
    | false =>
      have hq : q x = false := by
        cases hqx : q x with
        | true => rw [himp x hqx] at hp; cases hp
        | false => rfl
      simp [List.filter_cons, hp, ih, hq]

/-- Dropping Added exceptions does not change the service-validity verdict:
the exception clause only ever matches Removed exceptions. -/
theorem serviceActive_stripAdded (c : Calendar) (today : Nat) :
    serviceActive c.stripAdded today = serviceActive c today := by
  obtain ⟨sid, sname, sd, ed, dys, exs⟩ := c
  unfold serviceActive Calendar.stripAdded
  dsimp only
  rw [any_filter_of_imp]
  intro x hx
  simp only [Bool.and_eq_true, beq_iff_eq] at hx
  rw [hx.2]
  rfl

/-- Dropping Added exceptions does not change the per-entry verdict. -/
theorem processBus_stripAdded (d : Data) (conf : FilterConfig) (real_time : RealTime)
    (localToday : Nat) (bus : StopTime) :
    processBus d.stripAdded conf real_time localToday bus =
      processBus d conf real_time localToday bus := by
  unfold processBus Data.stripAdded
  dsimp only
  cases htrip : mapLookup d.trips bus.trip_id with
  | none => simp only [htrip]
  | some trip =>
    simp only [htrip]
    rw [mapLookup_map_snd]
    cases hcal : mapLookup d.calendar trip.service_id with
    | none => simp only [hcal, Option.map]
    | some service =>
      simp only [hcal, Option.map]
      rw [serviceActive_stripAdded]

/-- Dropping Added exceptions does not change the filter loop. -/
theorem collectBuses_stripAdded (d : Data) (conf : FilterConfig) (real_time : RealTime)
    (localToday : Nat) (l : List StopTime) :
    collectBuses d.stripAdded conf real_time localToday l =
      collectBuses d conf real_time localToday l := by
  induction l with
  | nil => rfl
  | cons b rest ih =>
    simp only [collectBuses, processBus_stripAdded, ih]

/-- C6: the service-validity verdict, and with it the whole ranked result,
is unchanged when every exception of kind Added is removed from every
calendar: Added exceptions are stored but never consulted, so a date
outside the weekly pattern or date range stays inactive even with an Added
exception on it. -/
theorem addedExceptionsNeverConsulted :
    (∀ (c : Calendar) (today : Nat),
      serviceActive c.stripAdded today = serviceActive c today) ∧
    (∀ (d : Data) (conf : FilterConfig) (real_time : RealTime) (localToday : Nat),
      Data.stop_sched d.stripAdded conf real_time localToday =
        Data.stop_sched d conf real_time localToday) := by
  refine ⟨serviceActive_stripAdded, ?_⟩
  intro d conf real_time localToday
  unfold Data.stop_sched Data.stripAdded
  dsimp only
  rw [show ({ d with calendar := d.calendar.map (fun p => (p.1, p.2.stripAdded)) } : Data) =
    d.stripAdded from rfl]
  rw [collectBuses_stripAdded]

/-- Entries present at a key survive any further stop-time grouping. -/
theorem lookupList_loadStopTimes_mono {st : StopTime} {m : List (String × List StopTime)}
    {key : String} (rows : List StopTimeRaw) (h : st ∈ lookupList m key) :
    st ∈ lookupList (loadStopTimes m rows) key := by
  induction rows generalizing m with
  | nil => exact h
  | cons r rest ih =>
    show st ∈ lookupList (loadStopTimes
      (mapInsertAppend m (StopTime.from_raw r).stop_id (StopTime.from_raw r)) rest) key
    apply ih
    rw [lookupList_insertAppend]
    by_cases hk : (StopTime.from_raw r).stop_id = key
    · rw [if_pos hk]
      exact List.mem_append_left _ h
    · rw [if_neg hk]
      exact h

/-- Every input row lands, parsed, in the group of its stop id. -/
theorem mem_loadStopTimes (rows : List StopTimeRaw) (m : List (String × List StopTime))
    (raw : StopTimeRaw) (h : raw ∈ rows) :
    StopTime.from_raw raw ∈ lookupList (loadStopTimes m rows) raw.stop_id := by
  induction rows generalizing m with
  | nil => cases h
  | cons r rest ih =>
    rcases List.mem_cons.mp h with heq | hmem
    · subst heq
      show StopTime.from_raw raw ∈ lookupList (loadStopTimes
        (mapInsertAppend m (StopTime.from_raw raw).stop_id (StopTime.from_raw raw)) rest)
        raw.stop_id
      apply lookupList_loadStopTimes_mono
      rw [lookupList_insertAppend]
      rw [show (StopTime.from_raw raw).stop_id = raw.stop_id from rfl, if_pos rfl]
      exact List.mem_append_right _ (List.mem_singleton.mpr rfl)
    · exact ih (mapInsertAppend m (StopTime.from_raw r).stop_id (StopTime.from_raw r)) hmem

/-- A successful load stores exactly the grouped stop-time rows. -/
theorem read_stop_times {calRows : List CalendarRaw} {exRows : List CalendarDateRaw}
    {stRows : List StopTimeRaw} {tripRows : List Trip} {stopRows : List Stop} {d : Data}
    (h : Data.read calRows exRows stRows tripRows stopRows = .ok d) :
    d.stop_times = loadStopTimes [] stRows := by
  unfold Data.read at h
  revert h
  cases hlc : loadCalendars [] calRows with
  | error e =>
    dsimp only
    intro h
    exact Except.noConfusion h
  | ok cal0 =>
    dsimp only
    cases hae : attachExceptions cal0 exRows with
    | error e =>
      dsimp only
      intro h
      exact Except.noConfusion h
    | ok calmap =>
      dsimp only
      intro h
      injection h with h2
      subst h2
      rfl

/-- Whether a load succeeds never depends on the stop-time rows. -/
theorem read_isOk_stRows (calRows : List CalendarRaw) (exRows : List CalendarDateRaw)
    (stRows1 stRows2 : List StopTimeRaw) (tripRows : List Trip) (stopRows : List Stop) :
    (Data.read calRows exRows stRows1 tripRows stopRows).isOk =
      (Data.read calRows exRows stRows2 tripRows stopRows).isOk := by
  unfold Data.read
  cases loadCalendars [] calRows with
  | error e => rfl
  | ok cal0 =>
    dsimp only
    cases attachExceptions cal0 exRows with
    | error e => rfl
    | ok calmap => rfl

/-- C7: a stop-time row whose departure or arrival time field fails to
parse (the parser tolerating a space-padded single-digit hour as in
" 6:05:00") never fails the load: whether loading succeeds is independent
of the stop-time rows, the row is kept in its stop's group, and the
unparseable time is silently replaced by midnight; in particular the time
field "garbage" does not parse and so loads as midnight. -/
theorem malformedTimesNonfatal :
    (∀ raw : StopTimeRaw, parseTimeK raw.departure_time = none →
      (StopTime.from_raw raw).departure_time = 0) ∧
    (∀ raw : StopTimeRaw, parseTimeK raw.arrival_time = none →
      (StopTime.from_raw raw).arrival_time = 0) ∧
    (∀ (calRows : List CalendarRaw) (exRows : List CalendarDateRaw)
      (stRows1 stRows2 : List StopTimeRaw) (tripRows : List Trip) (stopRows : List Stop),
      (Data.read calRows exRows stRows1 tripRows stopRows).isOk =
        (Data.read calRows exRows stRows2 tripRows stopRows).isOk) ∧
    (∀ (calRows : List CalendarRaw) (exRows : List CalendarDateRaw)
      (stRows : List StopTimeRaw) (tripRows : List Trip) (stopRows : List Stop)
      (d : Data) (raw : StopTimeRaw),
      Data.read calRows exRows stRows tripRows stopRows = .ok d → raw ∈ stRows →
      StopTime.from_raw raw ∈ lookupList d.stop_times raw.stop_id) ∧
    parseTimeK " 6:05:00" = some 21900 ∧
    parseTimeK "garbage" = none := by
  refine ⟨?_, ?_, read_isOk_stRows, ?_, rfl, rfl⟩
  · intro raw h
    show (parseTimeK raw.departure_time).getD 0 = 0
    rw [h]
    rfl
  · intro raw h
    show (parseTimeK raw.arrival_time).getD 0 = 0
    rw [h]
    rfl
  · intro calRows exRows stRows tripRows stopRows d raw hread hmem
    rw [read_stop_times hread]
    exact mem_loadStopTimes stRows [] raw hmem

/-- Witness for C7 at the all-garbage row: both times load as midnight, the
load result is as successful as with no stop-time rows at all, and the row
is kept in the group of stop S. -/
theorem malformedTimesNonfatal_witness :
    (StopTime.from_raw garbageRow).departure_time = 0 ∧
    (StopTime.from_raw garbageRow).arrival_time = 0 ∧
    (Data.read [] [] [garbageRow] [] []).isOk = (Data.read [] [] [] [] []).isOk ∧
    StopTime.from_raw garbageRow ∈ lookupList garbageLoaded.stop_times garbageRow.stop_id :=
  ⟨malformedTimesNonfatal.1 garbageRow rfl,
   malformedTimesNonfatal.2.1 garbageRow rfl,
   malformedTimesNonfatal.2.2.1 [] [] [garbageRow] [] [] [],
   malformedTimesNonfatal.2.2.2.1 [] [] [garbageRow] [] [] garbageLoaded garbageRow rfl
     (List.mem_singleton.mpr rfl)⟩

/-- A calendar row that parses keeps its service id, starts with no
exceptions, and has both its date fields in the eight-digit form. -/
theorem from_calendar_ok {raw : CalendarRaw} {cal : Calendar}
    (h : Calendar.from_calendar raw = .ok cal) :
    cal.service_id = raw.service_id ∧ cal.exceptions = [] ∧
    (∃ sd, parseDate8 raw.start_date = some sd) ∧
    (∃ ed, parseDate8 raw.end_date = some ed) := by
  unfold Calendar.from_calendar at h
  revert h
  dsimp only
  cases hs : parseDate8 raw.start_date with
  | none => intro h; exact Except.noConfusion h
  | some sd =>
    dsimp only
    cases he : parseDate8 raw.end_date with
    | none => intro h; exact Except.noConfusion h
    | some ed =>
      dsimp only
      intro h
      injection h with h2
      subst h2
      exact ⟨rfl, rfl, ⟨sd, rfl⟩, ⟨ed, rfl⟩⟩

/-- An exception row that parses keeps its service id and has its date
field in the eight-digit form. -/
theorem from_raw_ok {raw : CalendarDateRaw} {ex : CalendarDate}
    (h : CalendarDate.from_raw raw = .ok ex) :
    ex.service_id = raw.service_id ∧ ∃ dt, parseDate8 raw.date = some dt := by
  unfold CalendarDate.from_raw at h
  revert h
  cases hd : parseDate8 raw.date with
  | none => intro h; exact Except.noConfusion h
  | some dt =>
    dsimp only
    intro h
    injection h with h2
    subst h2
    exact ⟨rfl, dt, rfl⟩

/-- When the calendar loop succeeds, every row parsed. -/
theorem loadCalendars_ok_rows {m m2 : List (String × Calendar)} {rows : List CalendarRaw}
    (h : loadCalendars m rows = .ok m2) :
    ∀ r ∈ rows, ∃ cal, Calendar.from_calendar r = .ok cal := by
  induction rows generalizing m with
  | nil => intro r hr; cases hr
  | cons r0 rest ih =>
    revert h
    unfold loadCalendars
    cases hfc : Calendar.from_calendar r0 with
    | error e => intro h; exact Except.noConfusion h
    | ok cal =>
      dsimp only
      intro h r hr
      rcases List.mem_cons.mp hr with heq | hmem
      · subst heq
        exact ⟨cal, hfc⟩
      · exact ih h r hmem

/-- The calendar loop only creates keys named by some input row. -/
theorem loadCalendars_domain {m m2 : List (String × Calendar)} {rows : List CalendarRaw}
    (h : loadCalendars m rows = .ok m2) {key : String} {cal : Calendar}
    (hl : mapLookup m2 key = some cal) :
    (∃ v, mapLookup m key = some v) ∨ ∃ r ∈ rows, r.service_id = key := by
  induction rows generalizing m with
  | nil =>
    injection h with h2
    subst h2
    exact .inl ⟨cal, hl⟩
  | cons r0 rest ih =>
    revert h
    unfold loadCalendars
    cases hfc : Calendar.from_calendar r0 with
    | error e => intro h; exact Except.noConfusion h
    | ok c =>
      dsimp only
      intro h
      rcases ih h with ⟨v, hv⟩ | ⟨r, hr, hrk⟩
      · rw [mapLookup_insert] at hv
        by_cases hk : c.service_id = key
        · exact .inr ⟨r0, List.mem_cons_self r0 rest, by rw [← (from_calendar_ok hfc).1, hk]⟩
        · rw [if_neg hk] at hv
          exact .inl ⟨v, hv⟩
      · exact .inr ⟨r, List.mem_cons_of_mem r0 hr, hrk⟩

/-- When the exception loop succeeds, every row parsed and named a service
already present in the calendar map. -/
theorem attachExceptions_ok_rows {m m2 : List (String × Calendar)} {rows : List CalendarDateRaw}
    (h : attachExceptions m rows = .ok m2) :
    ∀ r ∈ rows, (∃ ex, CalendarDate.from_raw r = .ok ex) ∧
      ∃ v, mapLookup m r.service_id = some v := by
  induction rows generalizing m with
  | nil => intro r hr; cases hr
  | cons r0 rest ih =>
    revert h
    unfold attachExceptions
    cases hfr : CalendarDate.from_raw r0 with
    | error e => intro h; exact Except.noConfusion h
    | ok ex =>
      dsimp only
      cases hlk : mapLookup m ex.service_id with
      | none => intro h; exact Except.noConfusion h
      | some cal =>
        dsimp only
        intro h r hr
        rcases List.mem_cons.mp hr with heq | hmem
        · subst heq
          refine ⟨⟨ex, hfr⟩, ?_⟩
          rw [← (from_raw_ok hfr).1]
          exact ⟨cal, hlk⟩
        · obtain ⟨hfst, v, hv⟩ := ih h r hmem
          refine ⟨hfst, ?_⟩
          rw [mapLookup_insert] at hv
          by_cases hk : ex.service_id = r.service_id
          · rw [← hk]
            exact ⟨cal, hlk⟩
          · rw [if_neg hk] at hv
            exact ⟨v, hv⟩

/-- C8: loading fails outright whenever a calendar row has a date field
outside the eight-digit form, whenever an exception row has such a date
field, and whenever an exception row names a service id that no calendar
row declares; the failure is the whole load, so no store is produced. -/
theorem malformedDatesAndUnknownServiceFatal (calRows : List CalendarRaw)
    (exRows : List CalendarDateRaw) (stRows : List StopTimeRaw)
    (tripRows : List Trip) (stopRows : List Stop) :
    ((∃ r ∈ calRows, parseDate8 r.start_date = none ∨ parseDate8 r.end_date = none) →
      (Data.read calRows exRows stRows tripRows stopRows).isOk = false) ∧
    ((∃ r ∈ exRows, parseDate8 r.date = none) →
      (Data.read calRows exRows stRows tripRows stopRows).isOk = false) ∧
    ((∃ r ∈ exRows, ∀ c ∈ calRows, c.service_id ≠ r.service_id) →
      (Data.read calRows exRows stRows tripRows stopRows).isOk = false) := by
  unfold Data.read
  cases hlc : loadCalendars [] calRows with
  | error e => exact ⟨fun _ => rfl, fun _ => rfl, fun _ => rfl⟩
  | ok cal0 =>
    dsimp only
    cases hae : attachExceptions cal0 exRows with
    | error e => exact ⟨fun _ => rfl, fun _ => rfl, fun _ => rfl⟩
    | ok calmap =>
      dsimp only
      refine ⟨?_, ?_, ?_⟩
      · rintro ⟨r, hr, hbad⟩
        obtain ⟨cal, hfc⟩ := loadCalendars_ok_rows hlc r hr
        obtain ⟨-, -, ⟨sd, hsd⟩, ⟨ed, hed⟩⟩ := from_calendar_ok hfc
        cases hbad with
        | inl hb => rw [hb] at hsd; exact Option.noConfusion hsd
        | inr hb => rw [hb] at hed; exact Option.noConfusion hed
      · rintro ⟨r, hr, hbad⟩
        obtain ⟨⟨ex, hfr⟩, -⟩ := attachExceptions_ok_rows hae r hr
        obtain ⟨-, dt, hdt⟩ := from_raw_ok hfr
        rw [hbad] at hdt
        exact Option.noConfusion hdt
      · rintro ⟨r, hr, hnone⟩
        obtain ⟨-, v, hv⟩ := attachExceptions_ok_rows hae r hr
        rcases loadCalendars_domain hlc hv with ⟨w, hw⟩ | ⟨c, hc, hck⟩
        · exact Option.noConfusion hw
        · exact absurd hck (hnone c hc)

/-- Witness for C8 on three one-row inputs: an unparseable calendar start
date, an unparseable exception date, and an exception naming the unknown
service ZZ all make the load fail. -/
theorem malformedDatesAndUnknownServiceFatal_witness :
    ((Data.read [badCalRow] [] [] [] []).isOk = false) ∧
    ((Data.read [goodCalRow] [badExRow] [] [] []).isOk = false) ∧
    ((Data.read [goodCalRow] [orphanExRow] [] [] []).isOk = false) :=
  ⟨(malformedDatesAndUnknownServiceFatal [badCalRow] [] [] [] []).1 (by decide),
   (malformedDatesAndUnknownServiceFatal [goodCalRow] [badExRow] [] [] []).2.1 (by decide),
   (malformedDatesAndUnknownServiceFatal [goodCalRow] [orphanExRow] [] [] []).2.2 (by decide)⟩

/-- C9 counterexample: the ranked result is not a function of store, delay
index, and query alone — the ambient local date read by the past-departure
comparison also matters. Day 100 is the as-of date of the query; with the
ambient date at 100 the 08:00:00 departure is kept, with the ambient date
at 99 the comparison (99, 08:00:00) < (100, 00:00:00) drops every entry. -/
theorem rankNotFunctionOfThreeInputs :
    Data.stop_sched exData exConf [] 100 ≠ Data.stop_sched exData exConf [] 99 := by
  decide

/-- C9 amended: the ranked result is a deterministic function of the store,
the delay index, the query, and the ambient local date: two calls agreeing
on all four inputs give identical ordered output. -/
theorem rankDeterministicGivenAmbientDate (d1 d2 : Data) (conf1 conf2 : FilterConfig)
    (rt1 rt2 : RealTime) (lt1 lt2 : Nat)
    (hd : d1 = d2) (hc : conf1 = conf2) (hr : rt1 = rt2) (hl : lt1 = lt2) :
    Data.stop_sched d1 conf1 rt1 lt1 = Data.stop_sched d2 conf2 rt2 lt2 := by
  subst hd
  subst hc
  subst hr
  subst hl
  rfl

/-- Witness for the amended C9 at the example query. -/
theorem rankDeterministicGivenAmbientDate_witness :
    Data.stop_sched exData exConf exRT 100 = Data.stop_sched exData exConf exRT 100 :=
  rankDeterministicGivenAmbientDate exData exData exConf exConf exRT exRT 100 100
    rfl rfl rfl rfl

/-- Inserting a binding whose calendar and exceptions carry the key as
service id preserves the calendar-map invariant. -/
theorem calWF_insert {m : List (String × Calendar)} {k : String} {v : Calendar}
    (hwf : CalendarMapWF m) (hsid : v.service_id = k)
    (hexs : ∀ ex ∈ v.exceptions, ex.service_id = k) :
    CalendarMapWF (mapInsert m k v) := by
  intro key cal hl
  rw [mapLookup_insert] at hl
  by_cases hk : k = key
  · subst hk
    rw [if_pos rfl] at hl
    injection hl with h2
    subst h2
    exact ⟨hsid, hexs⟩
  · rw [if_neg hk] at hl
    exact hwf key cal hl

/-- The calendar loop preserves the calendar-map invariant. -/
theorem calWF_loadCalendars {m m2 : List (String × Calendar)} {rows : List CalendarRaw}
    (hwf : CalendarMapWF m) (h : loadCalendars m rows = .ok m2) : CalendarMapWF m2 := by
  induction rows generalizing m with
  | nil =>
    injection h with h2
    subst h2
    exact hwf
  | cons r0 rest ih =>
    revert h
    unfold loadCalendars
    cases hfc : Calendar.from_calendar r0 with
    | error e => intro h; exact Except.noConfusion h
    | ok cal =>
      dsimp only
      intro h
      obtain ⟨hsid, hexs, -, -⟩ := from_calendar_ok hfc
      refine ih (calWF_insert hwf rfl ?_) h
      rw [hexs]
      intro ex hex
      cases hex

/-- The exception loop preserves the calendar-map invariant: it only ever
appends an exception to the calendar stored under that exception's own
service id. -/
theorem calWF_attachExceptions {m m2 : List (String × Calendar)}
    {rows : List CalendarDateRaw}
    (hwf : CalendarMapWF m) (h : attachExceptions m rows = .ok m2) : CalendarMapWF m2 := by
  induction rows generalizing m with
  | nil =>
    injection h with h2
    subst h2
    exact hwf
  | cons r0 rest ih =>
    revert h
    unfold attachExceptions
    cases hfr : CalendarDate.from_raw r0 with
    | error e => intro h; exact Except.noConfusion h
    | ok ex =>
      dsimp only
      cases hlk : mapLookup m ex.service_id with
      | none => intro h; exact Except.noConfusion h
      | some cal =>
        dsimp only
        intro h
        obtain ⟨hcs, hce⟩ := hwf ex.service_id cal hlk
        refine ih (calWF_insert (v := { cal with exceptions := cal.exceptions ++ [ex] })
          hwf hcs ?_) h
        intro e he
        rw [show ({ cal with exceptions := cal.exceptions ++ [ex] } : Calendar).exceptions =
          cal.exceptions ++ [ex] from rfl] at he
        rcases List.mem_append.mp he with hold | hnew
        · exact hce e hold
        · rw [List.mem_singleton.mp hnew]

/-- C10: after every successful load, each exception stored in the calendar
keyed by a service id carries that service id itself, and so the filter's
per-exception check that the calendar's service id equals the exception's
service id is always true for attached exceptions. -/
theorem loadAttachesExceptionsToOwnCalendar (calRows : List CalendarRaw)
    (exRows : List CalendarDateRaw) (stRows : List StopTimeRaw)
    (tripRows : List Trip) (stopRows : List Stop) (d : Data)
    (hread : Data.read calRows exRows stRows tripRows stopRows = .ok d)
    (s : String) (cal : Calendar) (hlook : mapLookup d.calendar s = some cal) :
    ∀ ex ∈ cal.exceptions, ex.service_id = s ∧ cal.service_id = ex.service_id := by
  unfold Data.read at hread
  revert hread
  cases hlc : loadCalendars [] calRows with
  | error e => intro hread; exact Except.noConfusion hread
  | ok cal0 =>
    dsimp only
    cases hae : attachExceptions cal0 exRows with
    | error e => intro hread; exact Except.noConfusion hread
    | ok calmap =>
      dsimp only
      intro hread
      injection hread with h2
      subst h2
      have hwf0 : CalendarMapWF [] := by
        intro k c hc
        exact Option.noConfusion hc
      obtain ⟨hcs, hce⟩ :=
        calWF_attachExceptions (calWF_loadCalendars hwf0 hlc) hae s cal hlook
      intro ex hex
      exact ⟨hce ex hex, by rw [hcs, hce ex hex]⟩

/-- Witness for C10 on the one-calendar, one-exception load, instantiated
at the one stored exception. -/
theorem loadAttachesExceptionsToOwnCalendar_witness :
    loadedEx.service_id = "SV" ∧ loadedCal.service_id = loadedEx.service_id :=
  loadAttachesExceptionsToOwnCalendar [goodCalRow] [matchedExRow] [] [] []
    loadedData rfl "SV" loadedCal rfl loadedEx (List.mem_singleton.mpr rfl)
